import Mathlib

/-!
Shallow embedding of libbitset (src/include/bitset/bitset.h and the
bitset.c translation unit) over Nat, with 64-bit atoms modelled as
naturals reduced mod 2 ^ 64 where the C code stores into an atom.

Modelling conventions:
  - the `bits` buffer is a `List Nat` of atom values; a well-formed bitset
    has `bits.length = natoms` and every atom `< 2 ^ 64`;
  - C unsigned shifts are mathematical shifts followed by `% 2 ^ 64` at the
    point where the value is stored into (or masked against) an atom.  The
    source computes shift amounts as `bit & BITS_PER_ATOM` (values 0 or 64);
    a shift by 64 is transcribed as the mathematical shift, which is
    congruent to 0 mod 2 ^ 64;
  - the C int expression `~(1 << off)`, sign-extended to 64 bits before the
    `&=`, is transcribed as `BITSET_ATOM_MAX ^^^ mask64`;
  - `malloc`/`realloc` outcomes are an explicit `ok : Bool` oracle, and the
    uninitialized words `realloc` can expose are an explicit `fresh`
    oracle, since the code never writes them.
-/

namespace Libbitset

/-- Number of bits per atom: `sizeof(bitset_atom_t) * 8` with
`bitset_atom_t = uint64_t`. -/
def BITS_PER_ATOM : Nat := 64

/-- Max value of a bitset atom (`UINT64_MAX`). -/
def BITSET_ATOM_MAX : Nat := 2 ^ 64 - 1

/-- Macro `BITS_TO_NATOMS(_bits)`:
`(_bits / BITS_PER_ATOM) + ((_bits % BITS_PER_ATOM) != 0)`. -/
def BITS_TO_NATOMS (bits : Nat) : Nat :=
  bits / BITS_PER_ATOM + (if bits % BITS_PER_ATOM ≠ 0 then 1 else 0)

/-- The `bitset_t` struct: `nbits`, `natoms` and the owned atom buffer. -/
structure Bitset where
  nbits : Nat
  natoms : Nat
  bits : List Nat
deriving DecidableEq

/-- Fuel-bounded popcount loop; `bitset_atom_popcnt` is `__builtin_popcountl`,
whose 64-bit operand is consumed within 64 halvings. -/
def popcntAux : Nat → Nat → Nat
  | 0, _ => 0
  | fuel + 1, x => if x = 0 then 0 else x % 2 + popcntAux fuel (x / 2)

/-- Macro `bitset_atom_popcnt`, i.e. `__builtin_popcountl` on a 64-bit atom. -/
def bitset_atom_popcnt (x : Nat) : Nat := popcntAux 64 x

/-- Fuel-bounded count-trailing-zeros loop. -/
def ctzAux : Nat → Nat → Nat
  | 0, _ => 0
  | fuel + 1, x => if x % 2 = 1 then 0 else 1 + ctzAux fuel (x / 2)

/-- Macro `bitset_atom_ctz`, i.e. `__builtin_ctzl` on a 64-bit atom.
The C builtin is undefined at 0; this model yields 64 there (no theorem
below depends on the value at 0). -/
def bitset_atom_ctz (x : Nat) : Nat := ctzAux 64 x

/-- `bitset_init`, success path: `natoms = BITS_TO_NATOMS(nbits)`, buffer
zero-filled by `memset`.  (On allocation failure the C function returns -1
and leaves no usable buffer; no claim needs that branch.) -/
def bitset_init (nbits : Nat) : Bitset :=
  { nbits := nbits
    natoms := BITS_TO_NATOMS nbits
    bits := List.replicate (BITS_TO_NATOMS nbits) 0 }

/-- `bitset_copy`: `memcpy` of `src->natoms` atoms into `dest->bits`;
`nbits` and `natoms` of `dest` are not touched. -/
def bitset_copy (dest src : Bitset) : Bitset :=
  { dest with bits := src.bits.take src.natoms ++ dest.bits.drop src.natoms }

/-- `bitset_resize`: `realloc` to `BITS_TO_NATOMS(nbits)` atoms.  `ok`
models whether `realloc` succeeds; on failure the function returns -1
before assigning any field.  On success `realloc` preserves the common
prefix of atoms and exposes unspecified contents (`fresh`) in any newly
allocated atom — the code contains no zeroing of those atoms. -/
def bitset_resize (bs : Bitset) (nbits : Nat) (fresh : Nat → Nat) (ok : Bool) :
    Bitset × Int :=
  if ok then
    let new_natoms := BITS_TO_NATOMS nbits
    ({ nbits := nbits
       natoms := new_natoms
       bits := (List.range new_natoms).map (fun i => bs.bits.getD i (fresh i)) }, 0)
  else (bs, -1)

/-- `bitset_set`:
`bs->bits[bit / BITS_PER_ATOM] |= (1 << (bit & BITS_PER_ATOM))`.
Note the source masks with `& BITS_PER_ATOM` (= `& 64`), not
`% BITS_PER_ATOM`. -/
def bitset_set (bs : Bitset) (bit : Nat) : Bitset :=
  let w := (bs.bits.getD (bit / BITS_PER_ATOM) 0) |||
    ((1 <<< (bit &&& BITS_PER_ATOM)) % 2 ^ 64)
  { bs with bits := bs.bits.set (bit / BITS_PER_ATOM) w }

/-- `bitset_unset`:
`bs->bits[bit / BITS_PER_ATOM] &= ~(1 << (bit & BITS_PER_ATOM))`;
the complement of the int mask, sign-extended to 64 bits, is
`BITSET_ATOM_MAX ^^^ mask`. -/
def bitset_unset (bs : Bitset) (bit : Nat) : Bitset :=
  let w := (bs.bits.getD (bit / BITS_PER_ATOM) 0) &&&
    (BITSET_ATOM_MAX ^^^ ((1 <<< (bit &&& BITS_PER_ATOM)) % 2 ^ 64))
  { bs with bits := bs.bits.set (bit / BITS_PER_ATOM) w }

/-- `bitset_get` as defined in the `.c` translation unit:
`(bs->bits[bit / BITS_PER_ATOM] >> (bit & BITS_PER_ATOM)) & 1`. -/
def bitset_get (bs : Bitset) (bit : Nat) : Nat :=
  ((bs.bits.getD (bit / BITS_PER_ATOM) 0) >>> (bit &&& BITS_PER_ATOM)) &&& 1

/-- The header's `inline bit_t bitset_get`:
`return bs->bits[bit / BITS_PER_ATOM] |= (1 << (bit & BITS_PER_ATOM));`
— it stores the or-ed word back and returns it converted to
`bit_t` (`unsigned char`), hence the `% 256`. -/
def bitset_get_header (bs : Bitset) (bit : Nat) : Bitset × Nat :=
  let w := (bs.bits.getD (bit / BITS_PER_ATOM) 0) |||
    ((1 <<< (bit &&& BITS_PER_ATOM)) % 2 ^ 64)
  ({ bs with bits := bs.bits.set (bit / BITS_PER_ATOM) w }, w % 256)

/-- `bitset_set_bit`: `if (bitset_get(bs, idx)) bitset_unset(bs, idx); else
bitset_set(bs, idx);` — the `bit` argument is never consulted. -/
def bitset_set_bit (bs : Bitset) (idx : Nat) (bit : Nat) : Bitset :=
  if bitset_get bs idx ≠ 0 then bitset_unset bs idx else bitset_set bs idx

/-- `bitset_popcnt`: sum of `bitset_atom_popcnt(bs->bits[i])` for
`i < bs->natoms`. -/
def bitset_popcnt (bs : Bitset) : Nat :=
  ((List.range bs.natoms).map (fun i => bitset_atom_popcnt (bs.bits.getD i 0))).sum

/-- Scan of the atom array for the first non-zero atom, returning its index
and value.  This is the value computed by the loop
`while (bs->bits[atom] == 0 && atom < bs->natoms) atom++;` over the
`natoms`-element buffer: the loop stops at the first non-zero atom, or at
`natoms` (its read of `bits[natoms]` before the bound test cannot change
which of the two outcomes occurs). -/
def firstNonzeroWord : List Nat → Option (Nat × Nat)
  | [] => none
  | w :: ws =>
    if w ≠ 0 then some (0, w)
    else
      match firstNonzeroWord ws with
      | none => none
      | some (i, v) => some (i + 1, v)

/-- `bitset_first_set`: scan for the first non-zero atom; `-1` if none,
else `atom * BITS_PER_ATOM + bitset_atom_ctz(bs->bits[atom])`. -/
def bitset_first_set (bs : Bitset) : Int :=
  match firstNonzeroWord (bs.bits.take bs.natoms) with
  | none => -1
  | some (atom, w) => Int.ofNat (atom * BITS_PER_ATOM + bitset_atom_ctz w)

/-- `bitset_next_set`: mask the atom containing `from_` with
`BITSET_ATOM_MAX << (from & BITS_PER_ATOM)`; if the masked atom is
non-zero return `atom * BITS_PER_ATOM + bitset_atom_ctz(atom)` — the
source really passes the atom index, not the atom value, to ctz — else
scan the remaining atoms as `bitset_first_set` does. -/
def bitset_next_set (bs : Bitset) (from_ : Nat) : Int :=
  let atom := from_ / BITS_PER_ATOM
  let mask := (BITSET_ATOM_MAX <<< (from_ &&& BITS_PER_ATOM)) % 2 ^ 64
  if (bs.bits.getD atom 0) &&& mask ≠ 0 then
    Int.ofNat (atom * BITS_PER_ATOM + bitset_atom_ctz atom)
  else
    match firstNonzeroWord ((bs.bits.take bs.natoms).drop (atom + 1)) with
    | none => -1
    | some (i, w) => Int.ofNat ((atom + 1 + i) * BITS_PER_ATOM + bitset_atom_ctz w)

/-- `bitset_and_to`: `dest->bits[i] = a->bits[i] & b->bits[i]` for
`i < a->natoms`; `nbits`/`natoms` fields are untouched. -/
def bitset_and_to (dest a b : Bitset) : Bitset :=
  let step := fun (ws : List Nat) (i : Nat) =>
    ws.set i ((a.bits.getD i 0) &&& (b.bits.getD i 0))
  { dest with bits := (List.range a.natoms).foldl step dest.bits }

/-- `bitset_or_to`: `dest->bits[i] = a->bits[i] | b->bits[i]` for
`i < a->natoms`. -/
def bitset_or_to (dest a b : Bitset) : Bitset :=
  let step := fun (ws : List Nat) (i : Nat) =>
    ws.set i ((a.bits.getD i 0) ||| (b.bits.getD i 0))
  { dest with bits := (List.range a.natoms).foldl step dest.bits }

/-- `bitset_and`: in-place `a->bits[i] &= b->bits[i]` for `i < a->natoms`. -/
def bitset_and (a b : Bitset) : Bitset :=
  let step := fun (ws : List Nat) (i : Nat) =>
    ws.set i ((ws.getD i 0) &&& (b.bits.getD i 0))
  { a with bits := (List.range a.natoms).foldl step a.bits }

/-- `bitset_or`: in-place `a->bits[i] |= b->bits[i]` for `i < a->natoms`. -/
def bitset_or (a b : Bitset) : Bitset :=
  let step := fun (ws : List Nat) (i : Nat) =>
    ws.set i ((ws.getD i 0) ||| (b.bits.getD i 0))
  { a with bits := (List.range a.natoms).foldl step a.bits }

/-! Helper lemmas for the scan proofs. -/

theorem ctzAux_two_pow : ∀ fuel j : Nat, j < fuel → ctzAux fuel (2 ^ j) = j := by
  intro fuel
  induction fuel with
  | zero => intro j h; omega
  | succ fuel ih =>
    intro j h
    cases j with
    | zero => simp [ctzAux]
    | succ j =>
      have hmod : 2 ^ (j + 1) % 2 = 0 := by
        simp [Nat.pow_succ, Nat.mul_mod_left]
      have hdiv : 2 ^ (j + 1) / 2 = 2 ^ j := by
        rw [Nat.pow_succ, Nat.mul_div_cancel _ (by norm_num)]
      have hrec := ih j (by omega)
      simp [ctzAux, hmod, hdiv, hrec, Nat.add_comm]

theorem bitset_atom_ctz_two_pow (j : Nat) (h : j < 64) :
    bitset_atom_ctz (2 ^ j) = j :=
  ctzAux_two_pow 64 j h

theorem firstNonzeroWord_replicate_zero (n : Nat) :
    firstNonzeroWord (List.replicate n 0) = none := by
  induction n with
  | zero => rfl
  | succ n ih => simp [List.replicate_succ, firstNonzeroWord, ih]

theorem firstNonzeroWord_replicate_append (q w : Nat) (hw : w ≠ 0) (ws : List Nat) :
    firstNonzeroWord (List.replicate q 0 ++ w :: ws) = some (q, w) := by
  induction q with
  | zero => simp [firstNonzeroWord, hw]
  | succ q ih => simp [List.replicate_succ, firstNonzeroWord, ih]

/-! Theorems settling the claims. -/

/-- Claim C1: SetTo (`bitset_set_bit`) is claimed to leave bit `idx` equal to
exactly the passed value `v`.  The code instead toggles the current bit and
ignores `v`: on a bitset whose bit 0 is 1, `bitset_set_bit bs 0 1` leaves
bit 0 equal to 0, not 1. -/
theorem c1_set_bit_ignores_value :
    bitset_get (bitset_set_bit ⟨1, 1, [1]⟩ 0 1) 0 = 0 := by decide

/-- Claim C2: NextSet (`bitset_next_set`) is claimed to return the smallest
set-bit index at-or-after `from`.  On the bitset with 192 bits whose only
set bit is 130 (atom array `[0, 0, 4]`), `bitset_next_set bs 128` returns
129, not 130: the source passes the atom index, not the atom value, to
`bitset_atom_ctz` (`2 * 64 + ctz 2 = 129`). -/
theorem c2_next_set_ctz_of_atom_index :
    bitset_next_set ⟨192, 3, [0, 0, 4]⟩ 128 = 129 := by decide

/-- Claim C3: the round-trip Set-then-Get is claimed for every `i < n`.
With `n = 65` and `i = 64` the offset computed by the code is
`64 & BITS_PER_ATOM = 64` (a C shift by the full atom width, transcribed
as the mathematical shift mod `2 ^ 64`): `bitset_set` leaves the buffer
all-zero and the subsequent `bitset_get` returns 0, not 1. -/
theorem c3_set_get_round_trip_fails_at_64 :
    bitset_get (bitset_set (bitset_init 65) 64) 64 = 0 ∧
    (bitset_set (bitset_init 65) 64).bits = [0, 0] := by decide

/-- Claim C4: Get is claimed to return 0 or 1 with no side effect.  The
header's `inline bitset_get` executes `|=` (its body is that of
`bitset_set`) and returns the stored word truncated to `unsigned char`:
on the bitset with atom `6`, querying bit 1 stores `7` back into the
buffer and returns `7`, which is neither 0 nor 1.  (The `.c` definition
`bitset_get` is a pure read.) -/
theorem c4_header_get_mutates :
    (bitset_get_header ⟨64, 1, [6]⟩ 1).1.bits = [7] ∧
    (bitset_get_header ⟨64, 1, [6]⟩ 1).2 = 7 ∧
    (bitset_get_header ⟨64, 1, [6]⟩ 1).2 ≠ 0 ∧
    (bitset_get_header ⟨64, 1, [6]⟩ 1).2 ≠ 1 := by decide

/-- Claim C5: FirstSet (`bitset_first_set`) returns -1 on a bitset all of
whose atoms are zero (any number of atoms, including zero), and returns
`k` on a bitset whose storage has exactly one set bit, at position `k`.
The hypothesis `hlen` is the well-formedness tie between `natoms` and the
buffer length that holds for every initialized bitset. -/
theorem c5_first_set_scan (bs : Bitset) (n k m : Nat)
    (hlen : bs.natoms = bs.bits.length) :
    (bs.bits = List.replicate n 0 → bitset_first_set bs = -1) ∧
    (bs.bits = List.replicate (k / BITS_PER_ATOM) 0 ++
        2 ^ (k % BITS_PER_ATOM) :: List.replicate m 0 →
      bitset_first_set bs = Int.ofNat k) := by
  constructor
  · intro h
    unfold bitset_first_set
    rw [hlen, List.take_length, h, firstNonzeroWord_replicate_zero]
  · intro h
    unfold bitset_first_set
    rw [hlen, List.take_length, h,
      firstNonzeroWord_replicate_append _ _ (Nat.pos_of_ne_zero ?pos).ne' _]
    case pos => exact fun hcontra => absurd hcontra (Nat.pow_pos (by norm_num)).ne'
    · simp only [BITS_PER_ATOM]
      rw [bitset_atom_ctz_two_pow _ (Nat.mod_lt _ (by norm_num))]
      congr 1
      omega

/-- Witness for C5: the all-zero capacity-0 bitset yields -1, and the
64-bit bitset whose only set bit is 3 yields 3. -/
theorem c5_first_set_scan_witness :
    bitset_first_set ⟨0, 0, ([] : List Nat)⟩ = -1 ∧
    bitset_first_set ⟨64, 1, [8]⟩ = Int.ofNat 3 :=
  ⟨(c5_first_set_scan ⟨0, 0, []⟩ 0 0 0 rfl).1 rfl,
   (c5_first_set_scan ⟨64, 1, [8]⟩ 0 3 0 rfl).2 (by decide)⟩

/-- Claim C6: a growing Resize is claimed to make every newly addressable
index read 0 via Get.  `bitset_resize` reallocs and never writes the newly
allocated atoms: growing a 128-bit bitset to 192 bits with the fresh atom
holding 1 makes `bitset_get` at the new index 128 return 1, not 0 (old
atoms are preserved, the new third atom is realloc garbage). -/
theorem c6_resize_leaves_garbage :
    (bitset_resize ⟨128, 2, [0, 0]⟩ 192 (fun _ => 1) true).1.bits = [0, 0, 1] ∧
    bitset_get (bitset_resize ⟨128, 2, [0, 0]⟩ 192 (fun _ => 1) true).1 128 = 1 := by
  decide

/-- Claim C7: PopCount is claimed to equal the number of indices `i < nbits`
with `Get(i) = 1`.  On the 64-bit bitset whose atom is 2 (bit 1 set, no
padding tail), `bitset_popcnt` returns 1 while `bitset_get` returns 1 for
no index below 64 (Get shifts by `i & 64`, i.e. reads atom bit 0 for every
`i < 64`).  The second claimed part, PopCount of a freshly initialized
bitset being 0, does hold. -/
theorem c7_popcnt_get_mismatch :
    bitset_popcnt ⟨64, 1, [2]⟩ = 1 ∧
    (List.range 64).countP (fun i => bitset_get ⟨64, 1, [2]⟩ i == 1) = 0 ∧
    bitset_popcnt (bitset_init 64) = 0 := by decide

/-- Claim C8: a failing Resize returns a non-zero result and leaves the
bitset entirely unchanged — `bitset_resize` returns -1 before assigning
`nbits`, `natoms` or the buffer when `realloc` fails. -/
theorem c8_resize_failure_frame (bs : Bitset) (nbits : Nat) (fresh : Nat → Nat) :
    bitset_resize bs nbits fresh false = (bs, -1) ∧
    (bitset_resize bs nbits fresh false).2 ≠ 0 := by
  refine ⟨by simp [bitset_resize], by simp [bitset_resize]⟩

/-- Claim C9: `BITS_TO_NATOMS` is the ceiling of `n / BITS_PER_ATOM`; the
invariant `natoms = BITS_TO_NATOMS nbits` holds after `bitset_init` and
after `bitset_resize` (both the success and the failure branch preserve
it), and no other operation changes `nbits` or `natoms`. -/
theorem c9_natoms_invariant (n m i v : Nat) (bs dest src a b : Bitset)
    (fresh : Nat → Nat) :
    BITS_TO_NATOMS n = (n + BITS_PER_ATOM - 1) / BITS_PER_ATOM ∧
    ((bitset_init n).natoms = BITS_TO_NATOMS (bitset_init n).nbits ∧
      (bitset_init n).nbits = n) ∧
    ((bitset_resize bs m fresh true).1.natoms =
        BITS_TO_NATOMS (bitset_resize bs m fresh true).1.nbits ∧
      (bitset_resize bs m fresh true).1.nbits = m) ∧
    (bitset_resize bs m fresh false).1 = bs ∧
    ((bitset_set bs i).nbits = bs.nbits ∧ (bitset_set bs i).natoms = bs.natoms) ∧
    ((bitset_unset bs i).nbits = bs.nbits ∧ (bitset_unset bs i).natoms = bs.natoms) ∧
    ((bitset_set_bit bs i v).nbits = bs.nbits ∧
      (bitset_set_bit bs i v).natoms = bs.natoms) ∧
    ((bitset_copy dest src).nbits = dest.nbits ∧
      (bitset_copy dest src).natoms = dest.natoms) ∧
    ((bitset_and_to dest a b).nbits = dest.nbits ∧
      (bitset_and_to dest a b).natoms = dest.natoms) ∧
    ((bitset_or_to dest a b).nbits = dest.nbits ∧
      (bitset_or_to dest a b).natoms = dest.natoms) ∧
    ((bitset_and a b).nbits = a.nbits ∧ (bitset_and a b).natoms = a.natoms) ∧
    ((bitset_or a b).nbits = a.nbits ∧ (bitset_or a b).natoms = a.natoms) := by
  refine ⟨?_, ⟨rfl, rfl⟩, ⟨rfl, rfl⟩, by simp [bitset_resize], ⟨rfl, rfl⟩,
    ⟨rfl, rfl⟩, ?_, ⟨rfl, rfl⟩, ⟨rfl, rfl⟩, ⟨rfl, rfl⟩, ⟨rfl, rfl⟩, ⟨rfl, rfl⟩⟩
  · unfold BITS_TO_NATOMS BITS_PER_ATOM
    split <;> omega
  · unfold bitset_set_bit
    split <;> exact ⟨rfl, rfl⟩

/-- Claim C10: under the natoms-equality preconditions, each pairwise
operation and Copy writes only the destination's atom buffer: the `nbits`
and `natoms` fields of the result equal the destination's, and — the
embedding's operations being functions of their operands returning only
the updated destination — the non-destination operands are unchanged. -/
theorem c10_pairwise_frame (dest a b src : Bitset)
    (hab : a.natoms = b.natoms) (hda : dest.natoms = a.natoms)
    (hds : dest.natoms = src.natoms) :
    ((bitset_and_to dest a b).nbits = dest.nbits ∧
      (bitset_and_to dest a b).natoms = dest.natoms) ∧
    ((bitset_or_to dest a b).nbits = dest.nbits ∧
      (bitset_or_to dest a b).natoms = dest.natoms) ∧
    ((bitset_and a b).nbits = a.nbits ∧ (bitset_and a b).natoms = a.natoms) ∧
    ((bitset_or a b).nbits = a.nbits ∧ (bitset_or a b).natoms = a.natoms) ∧
    ((bitset_copy dest src).nbits = dest.nbits ∧
      (bitset_copy dest src).natoms = dest.natoms) :=
  ⟨⟨rfl, rfl⟩, ⟨rfl, rfl⟩, ⟨rfl, rfl⟩, ⟨rfl, rfl⟩, ⟨rfl, rfl⟩⟩

/-- Witness for C10 at concrete single-atom operands with equal `natoms`. -/
theorem c10_pairwise_frame_witness :
    ((bitset_and_to ⟨64, 1, [3]⟩ ⟨64, 1, [5]⟩ ⟨64, 1, [6]⟩).nbits = 64 ∧
      (bitset_and_to ⟨64, 1, [3]⟩ ⟨64, 1, [5]⟩ ⟨64, 1, [6]⟩).natoms = 1) ∧
    ((bitset_or_to ⟨64, 1, [3]⟩ ⟨64, 1, [5]⟩ ⟨64, 1, [6]⟩).nbits = 64 ∧
      (bitset_or_to ⟨64, 1, [3]⟩ ⟨64, 1, [5]⟩ ⟨64, 1, [6]⟩).natoms = 1) ∧
    ((bitset_and ⟨64, 1, [5]⟩ ⟨64, 1, [6]⟩).nbits = 64 ∧
      (bitset_and ⟨64, 1, [5]⟩ ⟨64, 1, [6]⟩).natoms = 1) ∧
    ((bitset_or ⟨64, 1, [5]⟩ ⟨64, 1, [6]⟩).nbits = 64 ∧
      (bitset_or ⟨64, 1, [5]⟩ ⟨64, 1, [6]⟩).natoms = 1) ∧
    ((bitset_copy ⟨64, 1, [3]⟩ ⟨64, 1, [9]⟩).nbits = 64 ∧
      (bitset_copy ⟨64, 1, [3]⟩ ⟨64, 1, [9]⟩).natoms = 1) :=
  c10_pairwise_frame ⟨64, 1, [3]⟩ ⟨64, 1, [5]⟩ ⟨64, 1, [6]⟩ ⟨64, 1, [9]⟩ rfl rfl rfl

end Libbitset
